import Mathlib

/-!
# Verification of the smmake build engine (src/cmd/main.go)

This file gives a shallow embedding of the makefile parser, the pattern
matcher and the dependency-graph execution engine of the smmake repository
(package main, src/cmd/main.go), and settles the frozen claims about it.

Conventions of the embedding:
* Go strings are Lean `String`s; Go `strings` helpers (TrimSpace, Fields,
  SplitN, Split, Contains) are re-implemented below on `List Char` with the
  ASCII whitespace set, which covers every input appearing in the theorems.
* Go maps are modelled as association lists where a later binding shadows an
  earlier one (`lookupLast`); the unspecified iteration order of a Go map is
  modelled by an explicit enumeration-order parameter where the code ranges
  over a map (`findMatchingPatternRule`).
* A Go nil-pointer dereference (a panic) is modelled by `Option.none`.
* The concurrent engine is modelled twice: `execSeq` is the engine under the
  particular goroutine interleaving that runs the dependency goroutines of a
  target one after another (every dependency still runs to completion even
  after a sibling failed, exactly as in the code, which never cancels), and
  `step`/`runSched` is a small-step machine in which every step is one atomic
  action of one goroutine of `ExecuteTarget`, driven by an explicit schedule
  of task identifiers, which exposes the true interleavings.
-/

set_option autoImplicit false

namespace Smmake

/-! ## Go string helpers -/

/-- The ASCII whitespace characters recognised by Go's `unicode.IsSpace`
(restricted to ASCII, which covers all inputs in this development). -/
def isWhite (c : Char) : Bool :=
  c = ' ' || c = '\t' || c = '\n' || c = '\r' || c = '\x0b' || c = '\x0c'

/-- Model of Go `strings.TrimSpace`. -/
def trimSpace (s : String) : String :=
  ⟨(((s.data.dropWhile isWhite).reverse).dropWhile isWhite).reverse⟩

/-- Does the string contain the character?  Model of Go `strings.Contains`
with a one-character separator. -/
def containsChar (s : String) (c : Char) : Bool :=
  s.data.contains c

/-- Model of Go `strings.SplitN (s, sep, 2)` for a one-character separator,
restricted to the case where the separator occurs (the code only uses the
result under a `strings.Contains` guard): everything before the first
occurrence, and everything after it. -/
def splitFirst (c : Char) (s : String) : String × String :=
  (⟨s.data.takeWhile (fun x => x ≠ c)⟩,
   ⟨(s.data.dropWhile (fun x => x ≠ c)).drop 1⟩)

/-- Model of Go `strings.Split` with a one-character separator. -/
def splitOnChar (c : Char) : List Char → List (List Char)
  | [] => [[]]
  | x :: rest =>
    if x = c then [] :: splitOnChar c rest
    else
      match splitOnChar c rest with
      | h :: t => (x :: h) :: t
      | [] => [[x]]

/-- Model of Go `strings.Fields`: split around runs of whitespace. -/
def fieldsAux : List Char → List Char → List String
  | [], acc => if acc.isEmpty then [] else [⟨acc.reverse⟩]
  | c :: rest, acc =>
    if isWhite c then
      if acc.isEmpty then fieldsAux rest []
      else ⟨acc.reverse⟩ :: fieldsAux rest []
    else fieldsAux rest (c :: acc)

/-- Model of Go `strings.Fields`. -/
def fields (s : String) : List String :=
  fieldsAux s.data []

/-- Does the string start with a tab?  Model of
Go `strings.HasPrefix (line, "\t")`. -/
def startsWithTab (s : String) : Bool :=
  match s.data with
  | '\t' :: _ => true
  | _ => false

/-- Does the string start with `#`? -/
def startsWithHash (s : String) : Bool :=
  match s.data with
  | '#' :: _ => true
  | _ => false

/-- Does the string start with `@`? -/
def startsWithAt (s : String) : Bool :=
  match s.data with
  | '@' :: _ => true
  | _ => false

/-- Drop one leading occurrence of the character, if present.  Model of
Go `strings.TrimPrefix` with a one-character prefix. -/
def dropLead (c : Char) (s : String) : String :=
  match s.data with
  | x :: rest => if x = c then ⟨rest⟩ else s
  | [] => s

/-- Lookup in an association list where the *last* binding for a key wins,
modelling assignment into a Go map followed by indexing. -/
def lookupLast {α : Type} : List (String × α) → String → Option α
  | [], _ => none
  | (k, v) :: rest, key =>
    match lookupLast rest key with
    | some r => some r
    | none => if k = key then some v else none

/-! ## Data model (struct Target, struct Command) -/

/-- Source `Command` struct: literal command text and the silent flag. -/
structure Command where
  cmd : String
  silent : Bool
deriving DecidableEq, Repr

/-- Source `Target` struct.  `deps` is the `Dependencies` field. -/
structure Target where
  name : String
  commands : List Command
  deps : List String
  pattern : Bool
  patternFrom : String
  patternTo : String
deriving DecidableEq, Repr

/-! ## Variable expansion (`expandVariables`)

The source compiles the regular expression `\$[\(\{]([^\)\}]+)[\)\}]` and
replaces every leftmost non-overlapping match `$(NAME)` / `${NAME}` (the
opening and closing bracket need not correspond) by the variable's value if
bound, leaving the match verbatim otherwise.  The scan below is that
replacement loop; the fuel argument (always at least the input length plus
one) only serves structural recursion and is never exhausted. -/

def expandAux (vars : List (String × String)) : Nat → List Char → List Char
  | 0, s => s
  | _, [] => []
  | fuel + 1, c :: rest =>
    if c = '$' then
      match rest with
      | d :: rest2 =>
        if d = '(' || d = '{' then
          let nm := rest2.takeWhile (fun x => x ≠ ')' && x ≠ '}')
          let rest3 := rest2.drop nm.length
          match rest3, nm with
          | e :: rest4, _ :: _ =>
            (match lookupLast vars ⟨nm⟩ with
             | some v => v.data
             | none => c :: d :: (nm ++ [e])) ++ expandAux vars fuel rest4
          | _, _ => c :: expandAux vars fuel rest
        else c :: expandAux vars fuel rest
      | [] => [c]
    else c :: expandAux vars fuel rest

/-- Source `expandVariables`: replace `$(VAR)` or `${VAR}` with their
values, leaving unresolved references verbatim. -/
def expandVariables (vars : List (String × String)) (s : String) : String :=
  ⟨expandAux vars (s.data.length + 1) s.data⟩

/-! ## The parser (`ParseMakefile`)

The parser state carries the heap of `Target` records allocated so far
(`currentTarget` is a pointer into it, modelled by an index), the `Targets`
map as an association list of name/pointer pairs, and the `Variables` map.
`parseLine` is the body of the scanner loop; `none` models the Go panic
(nil-pointer dereference) described at claim C10. -/

structure ParseSt where
  heap : List Target
  targets : List (String × Nat)
  vars : List (String × String)
  current : Option Nat
deriving DecidableEq, Repr

/-- The empty state built by `NewMakefile` (with `currentTarget = nil`). -/
def initParseSt : ParseSt := ⟨[], [], [], none⟩

/-- Replace the record at an index of the heap by its image under `f`. -/
def modifyIdx (f : Target → Target) : List Target → Nat → List Target
  | [], _ => []
  | t :: ts, 0 => f t :: ts
  | t :: ts, n + 1 => t :: modifyIdx f ts n

/-- Is the line skipped (blank, or comment after trimming)? -/
def blankOrComment (line : String) : Bool :=
  (trimSpace line).data.isEmpty || startsWithHash (trimSpace line)

/-- The target-definition branch of the scanner loop: splitting at the first
`:`, allocating (or, for a malformed pattern name, re-using) the current
target, assigning the dependency field and storing the pointer in the
`Targets` map.  `none` is the nil dereference of
`currentTarget.Dependencies = deps` when the target name splits on `%` into
a number of pieces other than two and no target is current. -/
def targetLineStep (st : ParseSt) (line : String) : Option ParseSt :=
  let parts := splitFirst ':' line
  let targetName := trimSpace parts.1
  let deps := fields parts.2
  if containsChar targetName '%' then
    match splitOnChar '%' targetName.data with
    | [pFrom, pTo] =>
      let t : Target :=
        ⟨targetName, [], deps, true, ⟨pFrom⟩, ⟨pTo⟩⟩
      some { st with
              heap := st.heap ++ [t],
              targets := st.targets ++ [(targetName, st.heap.length)],
              current := some st.heap.length }
    | _ =>
      match st.current with
      | none => none
      | some i =>
        some { st with
                heap := modifyIdx (fun t => { t with deps := deps }) st.heap i,
                targets := st.targets ++ [(targetName, i)] }
  else
    let t : Target := ⟨targetName, [], deps, false, "", ""⟩
    some { st with
            heap := st.heap ++ [t],
            targets := st.targets ++ [(targetName, st.heap.length)],
            current := some st.heap.length }

/-- The command branch of the scanner loop: strip the tab, read an optional
leading `@` as the silent flag, trim, expand variables and append to the
current target's command list (a no-op when no target is current). -/
def commandLineStep (st : ParseSt) (line : String) : Option ParseSt :=
  match st.current with
  | none => some st
  | some i =>
    let c1 := dropLead '\t' line
    let silent := startsWithAt c1
    let c2 := if silent then dropLead '@' c1 else c1
    let c3 := expandVariables st.vars (trimSpace c2)
    some { st with
            heap := modifyIdx
              (fun t => { t with commands := t.commands ++ [⟨c3, silent⟩] })
              st.heap i }

/-- One iteration of the scanner loop of `ParseMakefile`, with the guard
order of the source: blank/comment, then variable definition (any line
containing `=`; `SplitN (line, "=", 2)` always yields two parts there, so
that branch always fires), then target definition (no leading tab and a
`:`), then command (leading tab), else ignored. -/
def parseLine (st : ParseSt) (line : String) : Option ParseSt :=
  if blankOrComment line then some st
  else if containsChar line '=' then
    let parts := splitFirst '=' line
    some { st with vars := st.vars ++ [(trimSpace parts.1, trimSpace parts.2)] }
  else if !startsWithTab line && containsChar line ':' then
    targetLineStep st line
  else if startsWithTab line then
    commandLineStep st line
  else some st

/-- The whole scanner loop of `ParseMakefile` over the lines of the file
(the file-open error path and the debug printing do not affect the parsed
data and are omitted). -/
def parseLines (lines : List String) : Option ParseSt :=
  lines.foldlM parseLine initParseSt

/-! ## The pattern matcher (`findMatchingPatternRule`)

The source builds the regular expression `PatternFrom + "(.*)" + PatternTo`
with `fmt.Sprintf` (no quoting) and tests the candidate name with
`regexp.MatchString`, which is **unanchored**: it succeeds when any
substring of the name matches.  `goRegexMatch` below models that test for
pattern strings in which every character is either a regex literal or `.`
(the any-character metacharacter) — this fragment covers every pattern
string appearing in this development.  `matchLit` consumes such a pattern
character by character from the front of a string, and the two nested
scans over start positions realise the unanchored search with the
arbitrary-width `(.*)` gap in the middle. -/

/-- Match one pattern character (where `.` matches any character). -/
def rcharMatches (p c : Char) : Bool :=
  p = '.' || p = c

/-- Consume `pat` from the front of `s`, returning the remainder. -/
def matchLit : List Char → List Char → Option (List Char)
  | [], s => some s
  | _ :: _, [] => none
  | p :: ps, c :: cs => if rcharMatches p c then matchLit ps cs else none

/-- The string together with all of its suffixes, in order. -/
def tailsOf : List Char → List (List Char)
  | [] => [[]]
  | c :: cs => (c :: cs) :: tailsOf cs

/-- Model of `regexp.MatchString (PatternFrom + "(.*)" + PatternTo, name)`
for the literal-and-dot fragment: some suffix of `name` starts with a match
of `PatternFrom`, and some later position carries a match of `PatternTo`
(everything between is swallowed by `(.*)`, everything after is permitted
because the match is unanchored). -/
def goRegexMatch (pFrom pTo name : String) : Bool :=
  (tailsOf name.data).any fun s1 =>
    match matchLit pFrom.data s1 with
    | none => false
    | some rest => (tailsOf rest).any fun s2 => (matchLit pTo.data s2).isSome

/-- Source `findMatchingPatternRule`: scan the targets (the Go map is
ranged over in an unspecified order, here made explicit as the enumeration
`order`), skip non-pattern targets, and return the first whose regular
expression matches the requested name. -/
def findMatchingPatternRule (order : List Target) (name : String) :
    Option Target :=
  order.find? fun t => t.pattern && goRegexMatch t.patternFrom t.patternTo name

/-! ## The execution engine (`ExecuteTarget`)

The engine's shared mutable data are the `processing` and `executed` maps,
modelled as Boolean-valued functions.  `ExecEnv` packages the immutable
inputs of a run: the `Targets` map, the pattern matcher (the source calls
`m.findMatchingPatternRule`, whose outcome additionally depends on the Go
map iteration order, so the engine is stated against an abstract matcher
and every concrete instance below plugs in `findMatchingPatternRule` with
an explicit order), the `os.Stat` existence test, and the exit status of
spawning each external command.  `TraceEv` records the observable actions
of the command loop: `echo` is the unconditional
`fmt.Printf ("Executing: %s\n", cmd.Cmd)` and `run` is the spawn of the
whitespace-split command. -/

/-- The error values produced by `ExecuteTarget`, one constructor per
`fmt.Errorf` shape. -/
inductive Err where
  | circular : String → Err
  | notFound : String → Err
  | depFailed : String → Err → Err
  | cmdFailed : String → Err
  | fuelOut : Err
deriving DecidableEq, Repr

/-- Does the error text mention a circular dependency (possibly wrapped in
dependency-failure errors)? -/
def Err.mentionsCircular : Err → Bool
  | .circular _ => true
  | .depFailed _ e => e.mentionsCircular
  | _ => false

/-- The result of `ExecuteTarget`: `nil` or an error. -/
inductive ExecRes where
  | ok : ExecRes
  | err : Err → ExecRes
deriving DecidableEq, Repr

/-- Observable actions of the command loop of `ExecuteTarget`. -/
inductive TraceEv where
  | echo : String → TraceEv
  | run : String → List String → TraceEv
deriving DecidableEq, Repr

/-- The engine's shared mutable state: the `processing` and `executed`
maps of the `Makefile` struct. -/
structure ExecState where
  processing : String → Bool
  executed : String → Bool

/-- Pointwise update of a Boolean map, modelling `m[name] = b`. -/
def setFlag (f : String → Bool) (n : String) (b : Bool) : String → Bool :=
  fun m => if m = n then b else f m

/-- The state at engine start: both maps empty. -/
def initExec : ExecState := ⟨fun _ => false, fun _ => false⟩

/-- The immutable inputs of an engine run (see the section comment). -/
structure ExecEnv where
  targets : List (String × Target)
  matcher : String → Option Target
  fileExists : String → Bool
  cmdOk : String → Bool

/-- The resolution chain of `ExecuteTarget`: look the name up in the
`Targets` map, and fall back to the pattern matcher. -/
def resolveTarget (env : ExecEnv) (name : String) : Option Target :=
  match lookupLast env.targets name with
  | some t => some t
  | none => env.matcher name

/-- The command loop of `ExecuteTarget`: echo every command text
unconditionally, split it on whitespace, skip it when it has no tokens,
otherwise spawn it and stop at the first failure. -/
def runCommands (cmdOk : String → Bool) : List Command → ExecRes × List TraceEv
  | [] => (.ok, [])
  | c :: rest =>
    match fields c.cmd with
    | [] =>
      let r := runCommands cmdOk rest
      (r.1, TraceEv.echo c.cmd :: r.2)
    | p :: args =>
      if cmdOk c.cmd then
        let r := runCommands cmdOk rest
        (r.1, TraceEv.echo c.cmd :: TraceEv.run p args :: r.2)
      else (.err (.cmdFailed c.cmd), [TraceEv.echo c.cmd, TraceEv.run p args])

/-- The dependency loop of `ExecuteTarget` under the sequential schedule:
run each dependency to completion in order through `f` (no cancellation, so
later dependencies run even after an earlier failure, as in the code),
wrapping each failure in the dependency-error message; the caller takes the
first collected error. -/
def execDepsAux (f : ExecState → String → ExecRes × ExecState × List TraceEv) :
    ExecState → List String → List Err × ExecState × List TraceEv
  | st, [] => ([], st, [])
  | st, d :: ds =>
    let r1 := f st d
    let r2 := execDepsAux f r1.2.1 ds
    ((match r1.1 with
      | .err e => [Err.depFailed d e]
      | .ok => []) ++ r2.1,
     r2.2.1, r1.2.2 ++ r2.2.2)

/-- One invocation of `ExecuteTarget`, parameterised by the recursive
entry point used for dependencies (`none` models fuel exhaustion and is
never reached from `execSeq` with sufficient fuel).  The branches follow
the source line by line: the admission critical section (`processing`
check, `executed` memo check, `processing[name] = true`), resolution
through the `Targets` map, the pattern matcher and the filesystem check,
the dependency loop, the command loop, and the completion critical section
(`processing[name] = false; executed[name] = true`). -/
def execSeqCore (env : ExecEnv)
    (rec : Option (ExecState → String → ExecRes × ExecState × List TraceEv))
    (st : ExecState) (name : String) : ExecRes × ExecState × List TraceEv :=
  if st.processing name then (.err (.circular name), st, [])
  else if st.executed name then (.ok, st, [])
  else
    let st1 : ExecState := ⟨setFlag st.processing name true, st.executed⟩
    match resolveTarget env name with
    | none =>
      if env.fileExists name then
        (.ok, ⟨setFlag st1.processing name false,
               setFlag st1.executed name true⟩, [])
      else (.err (.notFound name), st1, [])
    | some t =>
      match rec with
      | none => (.err .fuelOut, st1, [])
      | some f =>
        let r := execDepsAux f st1 t.deps
        match r.1 with
        | e :: _ => (.err e, r.2.1, r.2.2)
        | [] =>
          let rc := runCommands env.cmdOk t.commands
          match rc.1 with
          | .err e => (.err e, r.2.1, r.2.2 ++ rc.2)
          | .ok =>
            (.ok, ⟨setFlag r.2.1.processing name false,
                   setFlag r.2.1.executed name true⟩, r.2.2 ++ rc.2)

/-- `ExecuteTarget` under the sequential dependency schedule, with a fuel
bound on the recursion depth (the admission checks run before any fuel is
consumed, as in the source, where they precede the recursive calls). -/
def execSeq (env : ExecEnv) : Nat → ExecState → String →
    ExecRes × ExecState × List TraceEv
  | 0 => execSeqCore env none
  | fuel + 1 => execSeqCore env (some (execSeq env fuel))

/-! ## The engine under true concurrency: a small-step task machine

`ExecuteTarget` spawns one goroutine per dependency edge.  Its only shared
mutable data are the `processing`/`executed` maps, touched inside three
mutex-protected critical sections (admission, the filesystem shortcut, and
completion); everything else reads immutable data or blocks on the
`WaitGroup`.  Every interleaving of the goroutines is therefore captured by
the order in which their atomic actions run.  The machine below has one
task per `ExecuteTarget` invocation; `step env c i` performs the next
atomic action of task `i`, and a schedule (a list of task identifiers)
drives `runSched`.  Task identifiers are indices into `Conf.tasks`; spawned
dependency tasks are appended.  A finished task reports its result to its
parent's pending-counter and error list (the error list models the arrival
order in the `errChan` channel, and the parent takes its head, which is the
first error received). -/

/-- The control state of one `ExecuteTarget` invocation. -/
inductive Phase where
  | start : Phase
  | waiting : Nat → List Err → List Command → Phase
  | running : List Command → Phase
  | finished : ExecRes → Phase
deriving DecidableEq, Repr

/-- One task: the requested name, the spawning task, and the phase. -/
structure Task where
  name : String
  parent : Option Nat
  phase : Phase
deriving DecidableEq, Repr

/-- A machine configuration: all tasks, the shared maps, and the trace of
command-loop actions (in global order). -/
structure Conf where
  tasks : List Task
  processing : String → Bool
  executed : String → Bool
  trace : List TraceEv

/-- Record the result of child task `i` in its parent's waiting phase
(decrement the pending counter; append a wrapped error on failure, in
arrival order, modelling the send into `errChan`). -/
def notifyParent (c : Conf) (child : Task) (r : ExecRes) : Conf :=
  match child.parent with
  | none => c
  | some p =>
    match c.tasks[p]? with
    | some pt =>
      match pt.phase with
      | .waiting pending errs cmds =>
        let errs' := errs ++ match r with
          | .err e => [Err.depFailed child.name e]
          | .ok => []
        let pt' : Task := { pt with phase := .waiting (pending - 1) errs' cmds }
        { c with tasks := c.tasks.set p pt' }
      | _ => c
    | none => c

/-- Finish task `i` with result `r` and notify its parent. -/
def finishTask (c : Conf) (i : Nat) (t : Task) (r : ExecRes) : Conf :=
  notifyParent { c with tasks := c.tasks.set i ({ t with phase := .finished r }) } t r

/-- One atomic action of task `i` (a no-op on an unknown, finished or
still-pending task).  `start` is the admission critical section followed by
resolution and goroutine spawning; `waiting` with counter zero collects the
first received error or moves on to the command loop; `running` echoes and
spawns one command, or performs the completion critical section when the
command list is exhausted. -/
def step (env : ExecEnv) (c : Conf) (i : Nat) : Conf :=
  match c.tasks[i]? with
  | none => c
  | some t =>
    match t.phase with
    | .start =>
      if c.processing t.name then finishTask c i t (.err (.circular t.name))
      else if c.executed t.name then finishTask c i t .ok
      else
        let c1 := { c with processing := setFlag c.processing t.name true }
        match resolveTarget env t.name with
        | some tg =>
          if tg.deps.isEmpty then
            { c1 with tasks := c1.tasks.set i ({ t with phase := .running tg.commands }) }
          else
            let waitT : Task := { t with phase := .waiting tg.deps.length [] tg.commands }
            let spawned := tg.deps.map (fun d => Task.mk d (some i) .start)
            { c1 with tasks := (c1.tasks.set i waitT) ++ spawned }
        | none =>
          if env.fileExists t.name then
            finishTask
              { c1 with processing := setFlag c1.processing t.name false,
                        executed := setFlag c1.executed t.name true } i t .ok
          else finishTask c1 i t (.err (.notFound t.name))
    | .waiting pending errs cmds =>
      if pending = 0 then
        match errs with
        | e :: _ => finishTask c i t (.err e)
        | [] => { c with tasks := c.tasks.set i ({ t with phase := .running cmds }) }
      else c
    | .running cmds =>
      match cmds with
      | [] =>
        finishTask
          { c with processing := setFlag c.processing t.name false,
                   executed := setFlag c.executed t.name true } i t .ok
      | cmd :: rest =>
        let c1 := { c with trace := c.trace ++ [TraceEv.echo cmd.cmd] }
        match fields cmd.cmd with
        | [] => { c1 with tasks := c1.tasks.set i ({ t with phase := .running rest }) }
        | p :: args =>
          let c2 := { c1 with trace := c1.trace ++ [TraceEv.run p args] }
          if env.cmdOk cmd.cmd then
            { c2 with tasks := c2.tasks.set i ({ t with phase := .running rest }) }
          else finishTask c2 i t (.err (.cmdFailed cmd.cmd))
    | .finished _ => c

/-- Run the machine under an explicit schedule of task identifiers. -/
def runSched (env : ExecEnv) (c : Conf) (sched : List Nat) : Conf :=
  sched.foldl (step env) c

/-- The configuration for a top-level `ExecuteTarget name` call. -/
def initConf (name : String) : Conf :=
  ⟨[⟨name, none, .start⟩], fun _ => false, fun _ => false, []⟩

/-! ## The specified pattern-match relation (for claim C3)

Modelled from the spec's words, for comparison with the source matcher:
"a pattern target with prefix P and suffix S matches `name` if `name` can
be split as `P + middle + S` for some (possibly empty) middle".  A name
splits that way exactly when P is a prefix of it, S is a suffix of it, and
the two do not overlap. -/
def specPatternMatch (pFrom pTo name : String) : Bool :=
  pFrom.data.isPrefixOf name.data && pTo.data.isSuffixOf name.data &&
    decide (pFrom.data.length + pTo.data.length ≤ name.data.length)

/-! ## Concrete instances used by the claims -/

/-- An environment with no targets, no pattern rules and no files on disk
(every command would succeed). -/
def emptyEnv : ExecEnv := ⟨[], fun _ => none, fun _ => false, fun _ => true⟩

/-- Target `A` of the true-cycle graph `A -> B`, `B -> A`. -/
def cycA : Target := ⟨"A", [], ["B"], false, "", ""⟩

/-- Target `B` of the true-cycle graph. -/
def cycB : Target := ⟨"B", [], ["A"], false, "", ""⟩

/-- The true-cycle environment of claim C5. -/
def cycEnv : ExecEnv :=
  ⟨[("A", cycA), ("B", cycB)], fun _ => none, fun _ => false, fun _ => true⟩

/-- Target `A` of the diamond graph `A -> [B, C]`, `B -> [D]`, `C -> [D]`. -/
def diaA : Target := ⟨"A", [], ["B", "C"], false, "", ""⟩

/-- Target `B` of the diamond graph. -/
def diaB : Target := ⟨"B", [], ["D"], false, "", ""⟩

/-- Target `C` of the diamond graph. -/
def diaC : Target := ⟨"C", [], ["D"], false, "", ""⟩

/-- Target `D` of the diamond graph, with one command. -/
def diaD : Target := ⟨"D", [⟨"echo d", false⟩], [], false, "", ""⟩

/-- The diamond environment of claim C1. -/
def diamondEnv : ExecEnv :=
  ⟨[("A", diaA), ("B", diaB), ("C", diaC), ("D", diaD)],
   fun _ => none, fun _ => false, fun _ => true⟩

/-- The interleaving of claim C1: task 0 executes `A` and spawns tasks 1
(`B`) and 2 (`C`); they spawn tasks 3 and 4, both for `D`; task 3 admits
`D` first, and task 4 reaches `D`'s admission check while task 3 is still
running `D`'s command — a sibling, not an ancestor, is computing `D`. -/
def diamondSched : List Nat := [0, 1, 2, 3, 4, 2, 3, 3, 1, 1, 0]

/-- The target with a command parsed from a silent command line (claim C2). -/
def silentT : Target := ⟨"t", [⟨"echo hi", true⟩], [], false, "", ""⟩

/-- The environment of claim C2. -/
def silentEnv : ExecEnv :=
  ⟨[("t", silentT)], fun _ => none, fun _ => false, fun _ => true⟩

/-- A plain target `X` with one command (claim C6's witness). -/
def plainX : Target := ⟨"X", [⟨"echo x", false⟩], [], false, "", ""⟩

/-- The environment of claim C6's witness. -/
def envX : ExecEnv :=
  ⟨[("X", plainX)], fun _ => none, fun _ => false, fun _ => true⟩

/-- The pattern target `%.o` with one command (claims C3 and C7): stored in
the `Targets` map under its literal name, prefix `""`, suffix `".o"`. -/
def patOTarget : Target := ⟨"%.o", [⟨"touch out", false⟩], [], true, "", ".o"⟩

/-- The environment of claim C7: only the pattern rule `%.o` exists; its
matcher is the source matcher over the one-element map. -/
def patEnv : ExecEnv :=
  ⟨[("%.o", patOTarget)], findMatchingPatternRule [patOTarget],
   fun _ => false, fun _ => true⟩

/-- The pattern target `a%` (claim C4). -/
def patA : Target := ⟨"a%", [], [], true, "a", ""⟩

/-- The pattern target `%b` (claim C4). -/
def patB : Target := ⟨"%b", [], [], true, "", "b"⟩

/-! ## Helper lemmas about the sequential engine -/

theorem setFlag_self (f : String → Bool) (n : String) (b : Bool) :
    setFlag f n b n = b := by
  simp [setFlag]

theorem setFlag_ne (f : String → Bool) (n : String) (b : Bool) {m : String}
    (h : m ≠ n) : setFlag f n b m = f m := by
  simp [setFlag, h]

/-- A state property preserved by each dependency call is preserved by the
whole dependency loop. -/
theorem execDepsAux_pres (P : ExecState → Prop)
    (f : ExecState → String → ExecRes × ExecState × List TraceEv)
    (hf : ∀ s d, P s → P (f s d).2.1) :
    ∀ (deps : List String) (st : ExecState), P st →
      P (execDepsAux f st deps).2.1 := by
  intro deps
  induction deps with
  | nil => intro st h; simpa [execDepsAux] using h
  | cons d ds ih =>
    intro st h
    simpa [execDepsAux] using ih _ (hf st d h)

/-- Through one engine invocation on any name, a name that is already
`in-progress` stays `in-progress` and its `executed` flag is unchanged
(every call on that name is rejected at admission), provided the recursive
entry point has the same property. -/
theorem execSeqCore_frozen {env : ExecEnv}
    {rec : Option (ExecState → String → ExecRes × ExecState × List TraceEv)}
    {n : String} {b : Bool}
    (hrec : ∀ g, rec = some g → ∀ (s : ExecState) (d : String),
      s.processing n = true → s.executed n = b →
      (g s d).2.1.processing n = true ∧ (g s d).2.1.executed n = b)
    (st : ExecState) (m : String)
    (hp : st.processing n = true) (he : st.executed n = b) :
    (execSeqCore env rec st m).2.1.processing n = true ∧
      (execSeqCore env rec st m).2.1.executed n = b := by
  by_cases h1 : st.processing m
  · simp [execSeqCore, h1, hp, he]
  · have hnm : n ≠ m := by
      intro h; rw [h] at hp; rw [hp] at h1; exact h1 rfl
    by_cases h2 : st.executed m
    · simp [execSeqCore, h1, h2, hp, he]
    · have hp1 : setFlag st.processing m true n = true := by
        rw [setFlag_ne _ _ _ hnm]; exact hp
      rcases hres : resolveTarget env m with _ | t
      · by_cases h3 : env.fileExists m
        · simp [execSeqCore, h1, h2, hres, h3, setFlag_ne _ _ _ hnm, hp, he]
        · simp [execSeqCore, h1, h2, hres, h3, hp1, he]
      · rcases rec with _ | g
        · simp [execSeqCore, h1, h2, hres, hp1, he]
        · have hP := execDepsAux_pres
            (fun s => s.processing n = true ∧ s.executed n = b) g
            (fun s d hPd => hrec g rfl s d hPd.1 hPd.2) t.deps
            ⟨setFlag st.processing m true, st.executed⟩ ⟨hp1, he⟩
        -- the loop state after the dependencies
          rcases hP with ⟨hP1, hP2⟩
          rcases herrs : (execDepsAux g
              ⟨setFlag st.processing m true, st.executed⟩ t.deps).1 with _ | ⟨e, es⟩
          · rcases hrc : (runCommands env.cmdOk t.commands).1 with _ | e
            · simp [execSeqCore, h1, h2, hres, herrs, hrc,
                    setFlag_ne _ _ _ hnm, hP1, hP2]
            · simp [execSeqCore, h1, h2, hres, herrs, hrc, hP1, hP2]
          · simp [execSeqCore, h1, h2, hres, herrs, hP1, hP2]

/-- `execSeqCore_frozen`, lifted over the fuel parameter of `execSeq`. -/
theorem execSeq_frozen (env : ExecEnv) (n : String) :
    ∀ (fuel : Nat) (st : ExecState) (m : String) (b : Bool),
      st.processing n = true → st.executed n = b →
      (execSeq env fuel st m).2.1.processing n = true ∧
        (execSeq env fuel st m).2.1.executed n = b := by
  intro fuel
  induction fuel with
  | zero =>
    intro st m b hp he
    exact execSeqCore_frozen (fun g hg => by cases hg) st m hp he
  | succ f ih =>
    intro st m b hp he
    exact execSeqCore_frozen
      (fun g hg => by
        cases hg
        intro s d hps hes
        exact ih s d b hps hes) st m hp he

/-- The `executed` flag of any name is monotone through one invocation of
the core on any name, given the same property of the recursive entry. -/
theorem execSeqCore_mono {env : ExecEnv}
    {rec : Option (ExecState → String → ExecRes × ExecState × List TraceEv)}
    {n : String}
    (hrec : ∀ g, rec = some g → ∀ (s : ExecState) (d : String),
      s.executed n = true → (g s d).2.1.executed n = true)
    (st : ExecState) (m : String) (he : st.executed n = true) :
    (execSeqCore env rec st m).2.1.executed n = true := by
  by_cases h1 : st.processing m
  · simp [execSeqCore, h1, he]
  · by_cases h2 : st.executed m
    · simp [execSeqCore, h1, h2, he]
    · have hnm : n ≠ m := by
        intro h; rw [h] at he; exact h2 he
      rcases hres : resolveTarget env m with _ | t
      · by_cases h3 : env.fileExists m
        · simp [execSeqCore, h1, h2, hres, h3, setFlag_ne _ _ _ hnm, he]
        · simp [execSeqCore, h1, h2, hres, h3, he]
      · rcases rec with _ | g
        · simp [execSeqCore, h1, h2, hres, he]
        · have hP := execDepsAux_pres (fun s => s.executed n = true) g
            (fun s d hPd => hrec g rfl s d hPd) t.deps
            ⟨setFlag st.processing m true, st.executed⟩ he
          rcases herrs : (execDepsAux g
              ⟨setFlag st.processing m true, st.executed⟩ t.deps).1 with _ | ⟨e, es⟩
          · rcases hrc : (runCommands env.cmdOk t.commands).1 with _ | e
            · simp [execSeqCore, h1, h2, hres, herrs, hrc,
                    setFlag_ne _ _ _ hnm, hP]
            · simp [execSeqCore, h1, h2, hres, herrs, hrc, hP]
          · simp [execSeqCore, h1, h2, hres, herrs, hP]

/-- `execSeqCore_mono`, lifted over the fuel parameter. -/
theorem execSeq_exec_mono (env : ExecEnv) (n : String) :
    ∀ (fuel : Nat) (st : ExecState) (m : String),
      st.executed n = true → (execSeq env fuel st m).2.1.executed n = true := by
  intro fuel
  induction fuel with
  | zero =>
    intro st m he
    exact execSeqCore_mono (fun g hg => by cases hg) st m he
  | succ f ih =>
    intro st m he
    exact execSeqCore_mono
      (fun g hg => by cases hg; intro s d hes; exact ih s d hes) st m he

/-- A name that is not `in-progress` and already `done` is admitted on the
memo path: the engine returns `nil` at once, with no state change and no
actions. -/
theorem execSeq_memo (env : ExecEnv) (fuel : Nat) (st : ExecState) (n : String)
    (hp : st.processing n = false) (he : st.executed n = true) :
    execSeq env fuel st n = (ExecRes.ok, st, []) := by
  cases fuel <;> simp [execSeq, execSeqCore, hp, he]

/-- When the core returns `nil`, the requested name has been marked `done`
and is no longer `in-progress`. -/
theorem execSeqCore_ok {env : ExecEnv}
    {rec : Option (ExecState → String → ExecRes × ExecState × List TraceEv)}
    {st : ExecState} {name : String}
    (h : (execSeqCore env rec st name).1 = ExecRes.ok) :
    (execSeqCore env rec st name).2.1.processing name = false ∧
      (execSeqCore env rec st name).2.1.executed name = true := by
  by_cases h1 : st.processing name
  · simp [execSeqCore, h1] at h
  · by_cases h2 : st.executed name
    · simp [execSeqCore, h1, h2]
    · rcases hres : resolveTarget env name with _ | t
      · by_cases h3 : env.fileExists name
        · simp [execSeqCore, h1, h2, hres, h3, setFlag_self]
        · simp [execSeqCore, h1, h2, hres, h3] at h
      · rcases rec with _ | g
        · simp [execSeqCore, h1, h2, hres] at h
        · rcases herrs : (execDepsAux g
              ⟨setFlag st.processing name true, st.executed⟩ t.deps).1 with _ | ⟨e, es⟩
          · rcases hrc : (runCommands env.cmdOk t.commands).1 with _ | e
            · simp [execSeqCore, h1, h2, hres, herrs, hrc, setFlag_self]
            · simp [execSeqCore, h1, h2, hres, herrs, hrc] at h
          · simp [execSeqCore, h1, h2, hres, herrs] at h

/-- `execSeqCore_ok`, lifted over the fuel parameter. -/
theorem execSeq_ok_state (env : ExecEnv) (fuel : Nat) (st : ExecState)
    (name : String) (h : (execSeq env fuel st name).1 = ExecRes.ok) :
    (execSeq env fuel st name).2.1.processing name = false ∧
      (execSeq env fuel st name).2.1.executed name = true := by
  cases fuel <;> exact execSeqCore_ok h

/-- When the core returns an error, the requested name is `in-progress` in
the final state and its `executed` flag is unchanged (it is never marked
`done` on a failure path), given the freezing property for the recursive
entry point. -/
theorem execSeqCore_err {env : ExecEnv}
    {rec : Option (ExecState → String → ExecRes × ExecState × List TraceEv)}
    {st : ExecState} {name : String} {e : Err}
    (hrec : ∀ g, rec = some g → ∀ (s : ExecState) (d : String) (b : Bool),
      s.processing name = true → s.executed name = b →
      (g s d).2.1.processing name = true ∧ (g s d).2.1.executed name = b)
    (h : (execSeqCore env rec st name).1 = ExecRes.err e) :
    (execSeqCore env rec st name).2.1.processing name = true ∧
      (execSeqCore env rec st name).2.1.executed name = st.executed name := by
  by_cases h1 : st.processing name
  · simp [execSeqCore, h1]
  · by_cases h2 : st.executed name
    · simp [execSeqCore, h1, h2] at h
    · rcases hres : resolveTarget env name with _ | t
      · by_cases h3 : env.fileExists name
        · simp [execSeqCore, h1, h2, hres, h3] at h
        · simp [execSeqCore, h1, h2, hres, h3, setFlag_self]
      · rcases rec with _ | g
        · simp [execSeqCore, h1, h2, hres, setFlag_self]
        · have hP := execDepsAux_pres
            (fun s => s.processing name = true ∧ s.executed name = st.executed name) g
            (fun s d hPd => hrec g rfl s d (st.executed name) hPd.1 hPd.2) t.deps
            ⟨setFlag st.processing name true, st.executed⟩ ⟨setFlag_self _ _ _, rfl⟩
          rcases herrs : (execDepsAux g
              ⟨setFlag st.processing name true, st.executed⟩ t.deps).1 with _ | ⟨e', es⟩
          · rcases hrc : (runCommands env.cmdOk t.commands).1 with _ | e'
            · simp [execSeqCore, h1, h2, hres, herrs, hrc] at h
            · simp [execSeqCore, h1, h2, hres, herrs, hrc, hP.1, hP.2]
          · simp [execSeqCore, h1, h2, hres, herrs, hP.1, hP.2]

/-- `execSeqCore_err`, lifted over the fuel parameter. -/
theorem execSeq_err_state (env : ExecEnv) (fuel : Nat) (st : ExecState)
    (name : String) (e : Err)
    (h : (execSeq env fuel st name).1 = ExecRes.err e) :
    (execSeq env fuel st name).2.1.processing name = true ∧
      (execSeq env fuel st name).2.1.executed name = st.executed name := by
  cases fuel with
  | zero => exact execSeqCore_err (fun g hg => by cases hg) h
  | succ f =>
    exact execSeqCore_err
      (fun g hg => by
        cases hg
        intro s d b hps hes
        exact execSeq_frozen env name f s d b hps hes) h

/-! ## The claims -/

/-- C1: refuted on the code.  In the diamond graph `A -> [B, C]`,
`B -> [D]`, `C -> [D]`, under the interleaving `diamondSched` in which
`C`'s goroutine reaches `D`'s admission check while `B`'s goroutine (a
sibling, not an ancestor) is still computing `D`, the second caller does
not wait: executing `A` finishes with an error that reports a circular
dependency for `D`, wrapped in the dependency errors of `C` and `A`.
(`D`'s command does run exactly once, as the trace shows.) -/
theorem c1_diamond_reports_false_cycle :
    (runSched diamondEnv (initConf "A") diamondSched).tasks[0]? =
      some ⟨"A", none, Phase.finished (ExecRes.err
        (Err.depFailed "C" (Err.depFailed "D" (Err.circular "D"))))⟩ ∧
    Err.mentionsCircular
      (Err.depFailed "C" (Err.depFailed "D" (Err.circular "D"))) = true ∧
    (runSched diamondEnv (initConf "A") diamondSched).trace =
      [TraceEv.echo "echo d", TraceEv.run "echo" ["d"]] := by
  exact ⟨by decide, by decide, by decide⟩

/-- C2: refuted on the code.  The command line `@echo hi` parses to the
command `echo hi` with the silent flag set, but the engine still echoes its
text before running it: the command loop prints `Executing: <cmd>` for
every command unconditionally and never reads the `Silent` field, so the
trace of executing the target starts with the echo event. -/
theorem c2_silent_command_still_echoed :
    (parseLines ["t:", "\t@echo hi"]).map ParseSt.heap = some [silentT] ∧
    silentT.commands = [⟨"echo hi", true⟩] ∧
    (execSeq silentEnv 1 initExec "t").1 = ExecRes.ok ∧
    (execSeq silentEnv 1 initExec "t").2.2 =
      [TraceEv.echo "echo hi", TraceEv.run "echo" ["hi"]] := by
  exact ⟨by decide, by decide, by decide, by decide⟩

/-- C3: refuted on the code.  The matcher does not implement the exact
split `P + middle + S`: the pattern rule `%.o` (prefix `""`, suffix `".o"`)
matches the name `fooo` because `.` in the suffix is a regex metacharacter
(there is no split of `fooo` ending in the literal `.o`), and the pattern
`a%b` matches `xaybz` because `regexp.MatchString` is unanchored and
accepts an inner-substring match. -/
theorem c3_matcher_not_exact_split :
    findMatchingPatternRule [patOTarget] "fooo" = some patOTarget ∧
    specPatternMatch patOTarget.patternFrom patOTarget.patternTo "fooo" = false ∧
    goRegexMatch "a" "b" "xaybz" = true ∧
    specPatternMatch "a" "b" "xaybz" = false := by
  exact ⟨by decide, by decide, by decide, by decide⟩

/-- C4: refuted on the code.  `findMatchingPatternRule` ranges over the
Go `Targets` map, whose iteration order is unspecified (and randomised in
practice); with the two pattern targets `a%` and `%b`, both of which match
the name `ab`, the two enumeration orders of the same map resolve `ab` to
different pattern targets, so the choice is not deterministic. -/
theorem c4_choice_depends_on_map_order :
    findMatchingPatternRule [patA, patB] "ab" = some patA ∧
    findMatchingPatternRule [patB, patA] "ab" = some patB ∧
    patA ≠ patB := by
  exact ⟨by decide, by decide, by decide⟩

/-- C5: confirmed.  In the graph `A -> B`, `B -> A`, executing `A` fails
with a circular-dependency error: the recursive call on `A` is rejected at
the admission check while `A` is `in-progress` on the current call path,
and the error is propagated through both dependency wrappers. -/
theorem c5_true_cycle_detected :
    (execSeq cycEnv 2 initExec "A").1 =
      ExecRes.err (Err.depFailed "B" (Err.depFailed "A" (Err.circular "A"))) ∧
    Err.mentionsCircular
      (Err.depFailed "B" (Err.depFailed "A" (Err.circular "A"))) = true := by
  exact ⟨by decide, by decide⟩

/-- C6: confirmed.  If an execution of a target returns `nil`, a second
execution of the same name returns `nil` immediately: the name was marked
`done` (and left `in-progress` = false), so the memo path fires, the state
is unchanged and no command is echoed or run (the action trace of the
second call is empty), for any amount of fuel. -/
theorem c6_second_execution_is_noop (env : ExecEnv) (fuel fuel2 : Nat)
    (st st' : ExecState) (tr : List TraceEv) (name : String)
    (h : execSeq env fuel st name = (ExecRes.ok, st', tr)) :
    execSeq env fuel2 st' name = (ExecRes.ok, st', []) := by
  have h1 : (execSeq env fuel st name).1 = ExecRes.ok := by rw [h]
  have hst : (execSeq env fuel st name).2.1 = st' := by rw [h]
  have hok := execSeq_ok_state env fuel st name h1
  rw [hst] at hok
  exact execSeq_memo env fuel2 st' name hok.1 hok.2

/-- Witness for C6: executing `X` once succeeds, and a second execution
from the resulting state returns success with that same state and an empty
action trace. -/
theorem c6_second_execution_is_noop_witness :
    execSeq envX 1 ((execSeq envX 1 initExec "X").2.1) "X" =
      (ExecRes.ok, (execSeq envX 1 initExec "X").2.1, []) :=
  c6_second_execution_is_noop envX 1 1 initExec
    ((execSeq envX 1 initExec "X").2.1) ((execSeq envX 1 initExec "X").2.2) "X" rfl

/-- C7: counterexample.  The `done` memoization key is the literal
requested name (`m.executed[targetName] = true`), not the identity of the
pattern target it resolves to: `a.o` and `b.o` both resolve to the pattern
target `%.o`; after executing `a.o` completes successfully, executing
`b.o` runs that pattern target's commands again (its action trace repeats
the echo and the spawn), contradicting the claim. -/
theorem c7_pattern_rerun_counterexample :
    (execSeq patEnv 1 initExec "a.o").1 = ExecRes.ok ∧
    resolveTarget patEnv "a.o" = some patOTarget ∧
    resolveTarget patEnv "b.o" = some patOTarget ∧
    (execSeq patEnv 1 ((execSeq patEnv 1 initExec "a.o").2.1) "b.o").2.2 =
      [TraceEv.echo "touch out", TraceEv.run "touch" ["out"]] := by
  exact ⟨by decide, by decide, by decide, by decide⟩

/-- C7 (amended): the memoization key of a pattern-satisfied request is the
literal requested name.  In general, any name that is `done` and not
`in-progress` is re-executed as a no-op (same state, empty trace); in
particular re-executing the literal name `a.o` after its first completion
runs no command, even though executing the fresh name `b.o` (which resolves
to the same pattern target, see the counterexample) runs the commands
again. -/
theorem c7_memo_keyed_by_literal_name :
    (∀ (env : ExecEnv) (fuel : Nat) (st : ExecState) (n : String),
        st.processing n = false → st.executed n = true →
        execSeq env fuel st n = (ExecRes.ok, st, [])) ∧
    (execSeq patEnv 1 ((execSeq patEnv 1 initExec "a.o").2.1) "a.o").1 =
      ExecRes.ok ∧
    (execSeq patEnv 1 ((execSeq patEnv 1 initExec "a.o").2.1) "a.o").2.2 = [] := by
  exact ⟨execSeq_memo, by decide, by decide⟩

/-- Witness for C7 (amended): the memo clause applied to the state after
executing `a.o`, with both hypotheses discharged by evaluation. -/
theorem c7_memo_keyed_by_literal_name_witness :
    execSeq patEnv 0 ((execSeq patEnv 1 initExec "a.o").2.1) "a.o" =
      (ExecRes.ok, (execSeq patEnv 1 initExec "a.o").2.1, []) :=
  c7_memo_keyed_by_literal_name.1 patEnv 0
    ((execSeq patEnv 1 initExec "a.o").2.1) "a.o" (by decide) (by decide)

/-- C8: counterexample.  The variable check runs before the tab and target
checks, so a tab-indented line containing `=` becomes a variable, not a
command: parsing `t:` then `\tX=1` leaves target `t` with no commands and
defines the variable `X`; and a target-shaped line containing `=` after
the colon, `a: b=c`, defines the variable `a: b` instead of target `a`. -/
theorem c8_precedence_counterexample :
    parseLines ["t:", "\tX=1"] =
      some ⟨[⟨"t", [], [], false, "", ""⟩], [("t", 0)], [("X", "1")], some 0⟩ ∧
    parseLines ["a: b=c"] = some ⟨[], [], [("a: b", "c")], none⟩ := by
  exact ⟨by decide, by decide⟩

/-- C8 (amended): the parser's precedence for a non-blank, non-comment line
is: any line containing `=` defines a variable (even a tab-indented line
and even a line of target shape); among lines without `=`, a tab-indented
line is a command of the most recent target, and a line without a leading
tab containing `:` is a target definition. -/
theorem c8_variable_check_first (st : ParseSt) (line : String) :
    (blankOrComment line = false → containsChar line '=' = true →
      parseLine st line = some { st with vars := st.vars ++
        [(trimSpace (splitFirst '=' line).1, trimSpace (splitFirst '=' line).2)] }) ∧
    (blankOrComment line = false → containsChar line '=' = false →
      startsWithTab line = true →
      parseLine st line = commandLineStep st line) ∧
    (blankOrComment line = false → containsChar line '=' = false →
      startsWithTab line = false → containsChar line ':' = true →
      parseLine st line = targetLineStep st line) := by
  refine ⟨?_, ?_, ?_⟩
  · intro h1 h2
    simp [parseLine, h1, h2]
  · intro h1 h2 h3
    simp [parseLine, h1, h2, h3]
  · intro h1 h2 h3 h4
    simp [parseLine, h1, h2, h3, h4]

/-- Witness for C8 (amended): the variable clause applied to the line
`\tX=1` in a state with a current target. -/
theorem c8_variable_check_first_witness :
    parseLine ⟨[⟨"t", [], [], false, "", ""⟩], [("t", 0)], [], some 0⟩ "\tX=1" =
      some ⟨[⟨"t", [], [], false, "", ""⟩], [("t", 0)], [("X", "1")], some 0⟩ :=
  ((c8_variable_check_first
      ⟨[⟨"t", [], [], false, "", ""⟩], [("t", 0)], [], some 0⟩ "\tX=1").1
    (by decide) (by decide)).trans (by decide)

/-- C9: confirmed.  Whenever an execution of a name fails, the name ends
`in-progress` and its `done` flag is exactly what it was before (never set
on a failure path); the `done` flag of every name is monotone (never
cleared).  Concretely, a requested name with no explicit target, no
matching pattern rule and no filesystem artifact fails with the
target-not-found error and is left `in-progress` and not `done`. -/
theorem c9_failure_never_done (env : ExecEnv) (fuel : Nat) (st : ExecState)
    (name : String) (e : Err)
    (h : (execSeq env fuel st name).1 = ExecRes.err e) :
    (execSeq env fuel st name).2.1.processing name = true ∧
    (execSeq env fuel st name).2.1.executed name = st.executed name ∧
    (∀ n, st.executed n = true → (execSeq env fuel st name).2.1.executed n = true) ∧
    (execSeq emptyEnv 1 initExec "ghost").1 = ExecRes.err (Err.notFound "ghost") ∧
    (execSeq emptyEnv 1 initExec "ghost").2.1.processing "ghost" = true ∧
    (execSeq emptyEnv 1 initExec "ghost").2.1.executed "ghost" = false := by
  have herr := execSeq_err_state env fuel st name e h
  exact ⟨herr.1, herr.2,
    fun n hn => execSeq_exec_mono env n fuel st name hn,
    by decide, by decide, by decide⟩

/-- Witness for C9: the failing target-not-found run on the name `ghost`
in the empty environment. -/
theorem c9_failure_never_done_witness :
    (execSeq emptyEnv 1 initExec "ghost").2.1.processing "ghost" = true ∧
    (execSeq emptyEnv 1 initExec "ghost").2.1.executed "ghost" = false := by
  have h := c9_failure_never_done emptyEnv 1 initExec "ghost"
    (Err.notFound "ghost") (by decide)
  exact ⟨h.1, h.2.1.trans (by decide)⟩

/-- C10: counterexample.  `ParseMakefile` is not total: on a file whose
first target line is `a%b%c: d` (a name with two `%` characters, before
any other target has been defined), the pattern branch leaves
`currentTarget` nil and the unconditional dependency assignment
`currentTarget.Dependencies = deps` dereferences it — the parser panics
(modelled by `none`) instead of returning a makefile. -/
theorem c10_parser_crash_counterexample :
    parseLines ["a%b%c: d"] = none ∧ initParseSt.current = none := by
  exact ⟨by decide, by decide⟩

/-- C10 (amended): the parser's line step is total except for exactly one
crash condition — it panics precisely on a non-blank, non-comment line
that contains no `=`, does not start with a tab, contains `:`, whose
target-name part contains `%` but does not split on `%` into exactly two
pieces (two or more `%` characters), while no target is current.  Every
other line is processed without crashing. -/
theorem c10_total_except_multi_percent (st : ParseSt) (line : String) :
    parseLine st line = none ↔
      (blankOrComment line = false ∧ containsChar line '=' = false ∧
       startsWithTab line = false ∧ containsChar line ':' = true ∧
       containsChar (trimSpace (splitFirst ':' line).1) '%' = true ∧
       (splitOnChar '%' (trimSpace (splitFirst ':' line).1).data).length ≠ 2 ∧
       st.current = none) := by
  rcases h1 : blankOrComment line
  case true => simp [parseLine, h1]
  case false =>
  rcases h2 : containsChar line '='
  case true => simp [parseLine, h1, h2]
  case false =>
  rcases h3 : startsWithTab line
  case true =>
    simp [parseLine, h1, h2, h3]
    cases hc : st.current <;> simp [commandLineStep, hc]
  case false =>
  rcases h4 : containsChar line ':'
  case true =>
    simp only [parseLine, h1, h2, h3, h4, targetLineStep]
    simp only [Bool.false_eq_true, Bool.not_false, Bool.true_and, Bool.and_self,
      if_false, if_true, true_and, iff_true]
    rcases h5 : containsChar (trimSpace (splitFirst ':' line).1) '%'
    case false => simp [h5]
    case true =>
      simp only [h5, if_true]
      rcases hsp : splitOnChar '%' (trimSpace (splitFirst ':' line).1).data
        with _ | ⟨a, _ | ⟨b, _ | ⟨c, rest2⟩⟩⟩
      · simp [hsp]
        cases hc : st.current <;> simp [hc]
      · simp [hsp]
        cases hc : st.current <;> simp [hc]
      · simp [hsp]
      · simp [hsp]
        cases hc : st.current <;> simp [hc]
  case false => simp [parseLine, h1, h2, h3, h4]

end Smmake
